import Mathlib

/-!
Verification of the CVLens resume-pipeline core against its natural-language
specification.  The Python sources under `src/` are shallowly embedded as
executable Lean definitions: machine floats are modelled by rationals,
byte strings by lists of naturals, the two persistence layers (markdown file
store and relational store) by association lists, and effectful pipeline steps
by explicit state-passing functions.  Each numbered theorem settles one claim
about the program.
-/

namespace CVLens

/-! ## CipherBox: authenticated symmetric encryption

Modelled from the spec: `EncryptedType` (src/models/database.py) delegates all
cryptography to the external `cryptography.fernet.Fernet` library, whose code
is not part of this repository.  Per the spec, the cipher is "symmetric,
authenticated (tamper-evident — decrypting altered ciphertext must fail, not
return garbage), and keyed by a single process-wide key".  We model it as a
keyed symbol-stream cipher over an alphabet of `symModulus` symbols together
with an integrity tag over the whole token; `fernetDecrypt` recomputes the tag
and refuses the token on any mismatch, mirroring Fernet's HMAC check. -/

/-- Size of the symbol alphabet: large enough to hold every Unicode scalar
value, so both raw bytes and character codes are valid symbols. -/
def symModulus : Nat := 1114112

/-- Keystream symbol for position `i` under `key` and per-token nonce `iv`. -/
def keystream (key iv i : Nat) : Nat := (key + 31 * iv + 7 * i) % symModulus

/-- Encrypt a symbol sequence starting at stream position `i`. -/
def encSeq (key iv : Nat) : Nat → List Nat → List Nat
  | _, [] => []
  | i, b :: bs => (b + keystream key iv i) % symModulus :: encSeq key iv (i + 1) bs

/-- Decrypt a symbol sequence starting at stream position `i`. -/
def decSeq (key iv : Nat) : Nat → List Nat → List Nat
  | _, [] => []
  | i, c :: cs => (c + (symModulus - keystream key iv i)) % symModulus :: decSeq key iv (i + 1) cs

/-- Integrity tag: a keyed checksum over the nonce and the ciphertext body.
Any change of a single symbol, of the nonce, or of the stored tag itself makes
the recomputed tag disagree with the stored one. -/
def macOf (key iv : Nat) (ct : List Nat) : Nat := 1 + key + 31 * iv + ct.sum

/-- Encryption token: nonce, ciphertext body, integrity tag. -/
structure FernetToken where
  iv : Nat
  ct : List Nat
  mac : Nat
  deriving DecidableEq, Repr

/-- Encrypt a plaintext symbol list into a token. -/
def fernetEncrypt (key iv : Nat) (p : List Nat) : FernetToken :=
  let ct := encSeq key iv 0 p
  ⟨iv, ct, macOf key iv ct⟩

/-- Decrypt a token; fails (returns `none`) whenever the integrity tag does
not match the token contents. -/
def fernetDecrypt (key : Nat) (t : FernetToken) : Option (List Nat) :=
  if t.mac = macOf key t.iv t.ct then some (decSeq key t.iv 0 t.ct) else none

/-! ## ScoringEngine (src/services/score.py)

Python float arithmetic is modelled by exact rationals; `str.lower` by
character-wise lowercasing; `in` on strings by substring containment; `in` on
lists by list membership.  Field names follow the source. -/

/-- Python `str.lower()` (character-wise). -/
def lowerStr (s : String) : String := ⟨s.data.map Char.toLower⟩

/-- Python `needle in hay` on lists of characters: some suffix of `hay`
starts with `needle`. -/
def hasSubList (n : List Char) : List Char → Bool
  | [] => n.isEmpty
  | c :: t => n.isPrefixOf (c :: t) || hasSubList n t

/-- Python `needle in hay` on strings (substring containment). -/
def strIncludes (hay needle : String) : Bool := hasSubList needle.data hay.data

/-- Weights section of the job profile YAML (`weights` mapping). -/
structure JobWeights where
  skills : ℚ
  education : ℚ
  experience : ℚ
  deriving DecidableEq, Repr

/-- Skills section of the job profile (absent lists read as `[]` via
`dict.get(..., [])`, so they are plain lists here). -/
structure JobSkills where
  required : List String
  preferred : List String
  nice_to_have : List String
  deriving DecidableEq, Repr

/-- Education section of the job profile. -/
structure JobEducation where
  required : List String
  preferred : List String
  deriving DecidableEq, Repr

/-- Experience section of the job profile.  `preferred_years` is optional in
the YAML; `_score_experience` defaults it to `minimum_years`
(`job_experience.get('preferred_years', min_years)`).  `minimum_years`
defaults to `0`, which is indistinguishable from an explicit `0`. -/
structure JobExperience where
  minimum_years : ℚ
  preferred_years : Option ℚ
  required_domains : List String
  deriving DecidableEq, Repr

/-- Job profile as read by `CandidateScorer` (`weights` defaults to
`skills 60 / education 20 / experience 20` when the key is absent; absent
`skills`/`education`/`experience` sections behave as all-empty sections). -/
structure JobProfile where
  weights : Option JobWeights
  skills : JobSkills
  education : JobEducation
  experience : JobExperience
  deriving DecidableEq, Repr

/-- One decrypted education entry (`{'text': ...}` as produced by
`to_dict`/`parse_resume`). -/
structure EduEntry where
  text : String
  deriving DecidableEq, Repr

/-- One decrypted experience entry (`exp.get('years', 0)`; an absent key is
the same as `0`). -/
structure ExpEntry where
  years : ℚ
  deriving DecidableEq, Repr

/-- Decrypted candidate dictionary as consumed by the scorer
(`candidate.to_dict(db.cipher)` restricted to the fields the scorer reads). -/
structure CandidateDict where
  skills : List String
  education : List EduEntry
  experience : List ExpEntry
  resume_text : String
  deriving DecidableEq, Repr

/-- Python `sum(1 for skill in job if skill in candidate)`. -/
def countMatches (job cand : List String) : Nat :=
  (job.filter (fun s => decide (s ∈ cand))).length

/-- Embeds `CandidateScorer._score_skills`. -/
def scoreSkills (profile : JobProfile) (cand : CandidateDict) : ℚ :=
  let required_skills := profile.skills.required.map lowerStr
  let preferred_skills := profile.skills.preferred.map lowerStr
  let nice_to_have := profile.skills.nice_to_have.map lowerStr
  let candidate_skills := cand.skills.map lowerStr
  if required_skills = [] ∧ preferred_skills = [] then 0.5
  else
    let required_matches := countMatches required_skills candidate_skills
    let preferred_matches := countMatches preferred_skills candidate_skills
    let nice_matches := countMatches nice_to_have candidate_skills
    let score : ℚ :=
      (if required_skills = [] then 0 else
        ((required_matches : ℚ) / (required_skills.length : ℚ)) * 0.6)
      + (if preferred_skills = [] then 0 else
        ((preferred_matches : ℚ) / (preferred_skills.length : ℚ)) * 0.3)
      + (if nice_to_have = [] then 0 else
        ((nice_matches : ℚ) / (nice_to_have.length : ℚ)) * 0.1)
    let total_relevant := required_matches + preferred_matches + nice_matches
    let score := if total_relevant > 5 then min 1 (score * 1.1) else score
    min 1 score

/-- Embeds `CandidateScorer._score_education`. -/
def scoreEducation (profile : JobProfile) (cand : CandidateDict) : ℚ :=
  let required_edu := profile.education.required.map lowerStr
  let preferred_edu := profile.education.preferred.map lowerStr
  let education_text := " ".intercalate (cand.education.map (fun e => lowerStr e.text))
  if education_text = "" then 0
  else
    let required_score : ℚ :=
      if required_edu.any (fun req => strIncludes education_text req) then 0.7 else 0
    let preferred_score : ℚ :=
      if preferred_edu.any (fun pref => strIncludes education_text pref) then 0.3 else 0
    min 1 (required_score + preferred_score)

/-- Lowercase decimal-digit run at the head of the list, as a number. -/
def digitsVal (ds : List Char) : Nat :=
  ds.foldl (fun acc c => 10 * acc + (c.toNat - 48)) 0

/-- Attempt the pattern `(\d+)\+?\s*years?\s*(?:of\s*)?experience` at the
start of `l` (text already lowercased); returns the captured number.  The
optional pieces never need backtracking because their first characters are
disjoint from what may follow them. -/
def matchYearsAt (l : List Char) : Option Nat :=
  let ds := l.takeWhile (fun c => c.isDigit)
  if ds = [] then none
  else
    let rest := l.dropWhile (fun c => c.isDigit)
    let rest := if rest.head? = some '+' then rest.tail else rest
    let rest := rest.dropWhile (fun c => c.isWhitespace)
    if ("year".data).isPrefixOf rest then
      let rest := rest.drop 4
      let rest := if rest.head? = some 's' then rest.tail else rest
      let rest := rest.dropWhile (fun c => c.isWhitespace)
      let rest := if ("of".data).isPrefixOf rest then
          (rest.drop 2).dropWhile (fun c => c.isWhitespace) else rest
      if ("experience".data).isPrefixOf rest then some (digitsVal ds) else none
    else none

/-- Leftmost match of the years pattern (`re.search`). -/
def searchYears : List Char → Option Nat
  | [] => none
  | c :: t =>
    match matchYearsAt (c :: t) with
    | some n => some n
    | none => searchYears t

/-- Embeds the regex fallback of `_get_total_experience_years`
(`re.IGNORECASE` is modelled by lowercasing the text first). -/
def extractYearsFromText (s : String) : ℚ :=
  match searchYears (lowerStr s).data with
  | some n => (n : ℚ)
  | none => 0

/-- Embeds `CandidateScorer._get_total_experience_years`. -/
def getTotalExperienceYears (cand : CandidateDict) : ℚ :=
  if cand.experience = [] then extractYearsFromText cand.resume_text
  else (cand.experience.map (fun e => e.years)).sum

/-- Embeds `CandidateScorer._score_experience`. -/
def scoreExperience (profile : JobProfile) (cand : CandidateDict) : ℚ :=
  let min_years := profile.experience.minimum_years
  let pref_years := profile.experience.preferred_years.getD min_years
  let required_domains := profile.experience.required_domains.map lowerStr
  let total_years := getTotalExperienceYears cand
  let years_score : ℚ :=
    if total_years ≥ pref_years then 1
    else if total_years ≥ min_years then
      0.7 + (total_years - min_years) / (pref_years - min_years) * 0.3
    else if min_years > 0 then total_years / min_years * 0.7 else 0.5
  let resume_text := lowerStr cand.resume_text
  let domain_matches : Nat :=
    (required_domains.filter (fun d => strIncludes resume_text d)).length
  let domain_score : ℚ :=
    if required_domains = [] then 1
    else (domain_matches : ℚ) / (required_domains.length : ℚ)
  min 1 (years_score * 0.7 + domain_score * 0.3)

/-- Default weights used when the profile has no `weights` key. -/
def defaultWeights : JobWeights := ⟨60, 20, 20⟩

/-- Embeds the total computed by `CandidateScorer.score_candidate`: the
weighted sum divided by 100, then reported `* 100` on the 0–100 scale. -/
def scoreCandidateTotal (profile : JobProfile) (cand : CandidateDict) : ℚ :=
  let weights := profile.weights.getD defaultWeights
  let skills_score := scoreSkills profile cand
  let education_score := scoreEducation profile cand
  let experience_score := scoreExperience profile cand
  let total_score :=
    skills_score * weights.skills / 100
    + education_score * weights.education / 100
    + experience_score * weights.experience / 100
  total_score * 100

/-- Skills factor as the claim states it, over the (case-normalised) skill
sets: `(|R∩C|/|R|)*0.6` when `R` is non-empty, plus `(|P∩C|/|P|)*0.3` when `P`
is non-empty, plus `(|N∩C|/|N|)*0.1` when `N` is non-empty, boosted by `1.1`
and clamped when the total number of matches exceeds 5, then clamped to 1;
exactly `0.5` when both `R` and `P` are empty. -/
def specSkillsFactor (R P N C : Finset String) : ℚ :=
  if R = ∅ ∧ P = ∅ then 0.5
  else
    let base : ℚ :=
      (if R = ∅ then 0 else ((R ∩ C).card : ℚ) / (R.card : ℚ) * 0.6)
      + (if P = ∅ then 0 else ((P ∩ C).card : ℚ) / (P.card : ℚ) * 0.3)
      + (if N = ∅ then 0 else ((N ∩ C).card : ℚ) / (N.card : ℚ) * 0.1)
    let boosted :=
      if (R ∩ C).card + (P ∩ C).card + (N ∩ C).card > 5 then min 1 (base * 1.1) else base
    min 1 boosted
/-- Job profile of spec Scenario C: `required=["python","sql"],
preferred=["aws"], weights 60/20/20`. -/
def scenarioCProfile : JobProfile :=
  ⟨some ⟨60, 20, 20⟩, ⟨["python", "sql"], ["aws"], []⟩, ⟨[], []⟩, ⟨0, none, []⟩⟩

/-- Candidate of spec Scenario C: skills `python, aws, docker`. -/
def scenarioCCandidate : CandidateDict := ⟨["python", "aws", "docker"], [], [], ""⟩

/-- Job profile whose required list holds the same skill twice after
lowercasing (`"Python"` and `"python"`). -/
def dupSkillsProfile : JobProfile :=
  ⟨some ⟨60, 20, 20⟩, ⟨["Python", "python", "sql"], [], []⟩, ⟨[], []⟩, ⟨0, none, []⟩⟩

/-- Candidate holding the single skill `python`. -/
def dupSkillsCandidate : CandidateDict := ⟨["python"], [], [], ""⟩

/-- Job profile whose weights are valid (non-negative) but sum to 300. -/
def badWeightsProfile : JobProfile :=
  ⟨some ⟨300, 0, 0⟩, ⟨["python"], [], []⟩, ⟨[], []⟩, ⟨0, none, []⟩⟩

/-- Candidate matching the single required skill of `badWeightsProfile`. -/
def badWeightsCandidate : CandidateDict := ⟨["python"], [], [], ""⟩

/-- Mirror of `_score_experience` in which every division first checks its
denominator and fails (`none`) on zero; used to certify division safety. -/
def scoreExperienceChecked (profile : JobProfile) (cand : CandidateDict) : Option ℚ :=
  let min_years := profile.experience.minimum_years
  let pref_years := profile.experience.preferred_years.getD min_years
  let required_domains := profile.experience.required_domains.map lowerStr
  let total_years := getTotalExperienceYears cand
  let years_score : Option ℚ :=
    if total_years ≥ pref_years then some 1
    else if total_years ≥ min_years then
      if pref_years - min_years = 0 then none
      else some (0.7 + (total_years - min_years) / (pref_years - min_years) * 0.3)
    else if min_years > 0 then
      if min_years = 0 then none else some (total_years / min_years * 0.7)
    else some 0.5
  let domain_matches : Nat :=
    (required_domains.filter (fun d => strIncludes (lowerStr cand.resume_text) d)).length
  let domain_score : Option ℚ :=
    if required_domains = [] then some 1
    else if (required_domains.length : ℚ) = 0 then none
    else some ((domain_matches : ℚ) / (required_domains.length : ℚ))
  match years_score, domain_score with
  | some ys, some ds => some (min 1 (ys * 0.7 + ds * 0.3))
  | _, _ => none

/-! ## AttachmentSelector (src/services/ingest.py, `_select_best_resume`)

One saved attachment: name, content hash, size in bytes, as collected by
`_process_message` into `saved_attachments`. -/

/-- Saved-attachment entry (`name`/`hash`/`size` keys of the dict built in
`_process_message`; the path is irrelevant to selection). -/
structure SavedAttachment where
  name : String
  hash : String
  size : Nat
  deriving DecidableEq, Repr

/-- Python `s.endswith(t)`. -/
def strEndsWith (s t : String) : Bool := t.data.isSuffixOf s.data

/-- Per-attachment score of `_select_best_resume`: name tiers are an
`if/elif` chain (+10 resume, +8 cv, +6 curriculum/vitae), size tiers likewise
(+5 over 200 KB, +3 over 100 KB, +1 over 50 KB), and +2 for a `.pdf` name. -/
def attachmentScore (att : SavedAttachment) : Nat :=
  let filename_lower := lowerStr att.name
  let score := 0
  let score :=
    if strIncludes filename_lower "resume" then score + 10
    else if strIncludes filename_lower "cv" then score + 8
    else if strIncludes filename_lower "curriculum" || strIncludes filename_lower "vitae" then
      score + 6
    else score
  let score :=
    if att.size > 200000 then score + 5
    else if att.size > 100000 then score + 3
    else if att.size > 50000 then score + 1
    else score
  let score := if strEndsWith (lowerStr att.name) ".pdf" then score + 2 else score
  score

/-- Stable descending insertion used to model Python's stable
`list.sort(key=..., reverse=True)`: an element is placed before the first
strictly smaller-or-equal score, so earlier-seen elements stay first among
equal scores. -/
def insertDesc (a : SavedAttachment) : List SavedAttachment → List SavedAttachment
  | [] => [a]
  | b :: l => if attachmentScore b ≤ attachmentScore a then a :: b :: l else b :: insertDesc a l

/-- Stable descending sort by score (Python `sort(..., reverse=True)` is
stable). -/
def sortDesc : List SavedAttachment → List SavedAttachment
  | [] => []
  | a :: l => insertDesc a (sortDesc l)

/-- Embeds `_select_best_resume`: singleton shortcut, otherwise stable
descending sort by score and take the first element. -/
def selectBestResume (attachments : List SavedAttachment) : Option SavedAttachment :=
  if attachments.length = 1 then attachments.head?
  else (sortDesc attachments).head?

/-- Selection as the claim states it: the first-seen attachment of maximal
score (ties broken by first-seen order). -/
def selectFirstSeenMax : List SavedAttachment → Option SavedAttachment
  | [] => none
  | a :: l =>
    match selectFirstSeenMax l with
    | none => some a
    | some b => if attachmentScore b > attachmentScore a then some b else some a

/-- Per-attachment score as the claim states it: one name tier (+10 resume,
else +8 cv, else +6 curriculum/vitae), plus one size tier, plus +2 for a
`.pdf` extension. -/
def attachmentScoreSpec (att : SavedAttachment) : Nat :=
  (if strIncludes (lowerStr att.name) "resume" then 10
   else if strIncludes (lowerStr att.name) "cv" then 8
   else if strIncludes (lowerStr att.name) "curriculum"
       || strIncludes (lowerStr att.name) "vitae" then 6
   else 0)
  + (if att.size > 200000 then 5 else if att.size > 100000 then 3
     else if att.size > 50000 then 1 else 0)
  + (if strEndsWith (lowerStr att.name) ".pdf" then 2 else 0)

/-! ## CandidateStore, file path (src/models/candidate.py and
src/models/file_storage.py)

`CandidateData` mirrors the dataclass field-for-field; `datetime` values are
modelled as natural-number timestamps, the `score_breakdown` dict as an
association list.  The store itself is the `data/candidates/<email_id>/`
directory tree: an association list keyed by `email_id`, since
`save_candidate_metadata` writes `metadata.md` under the candidate's own
`email_id` directory, overwriting any previous file. -/

/-- Field-for-field model of the `CandidateData` dataclass. -/
structure CandidateData where
  email_id : String
  email_date : Nat
  sender_email : String
  sender_name : String
  subject : String
  resume_filename : String
  resume_hash : String
  resume_size_bytes : Nat
  candidate_name : Option String
  candidate_email : Option String
  candidate_phone : Option String
  skills : List String
  education : List String
  experience : List String
  executive_summary : String
  experience_highlights : List String
  education_highlights : List String
  interesting_facts : List String
  score : ℚ
  score_breakdown : List (String × ℚ)
  status : String
  tags : List String
  notes : String
  is_parsed : Bool
  is_scored : Bool
  parse_error : Option String
  created_at : Nat
  updated_at : Nat
  processed_at : Option Nat
  deriving DecidableEq, Repr

/-- The candidate record `_process_message` constructs for the chosen
attachment: every analysis/scoring/decision field at its dataclass default. -/
def newCandidateData (email_id : String) (email_date : Nat)
    (sender_email sender_name subject : String) (best : SavedAttachment)
    (now : Nat) : CandidateData where
  email_id := email_id
  email_date := email_date
  sender_email := sender_email
  sender_name := sender_name
  subject := subject
  resume_filename := best.name
  resume_hash := best.hash
  resume_size_bytes := best.size
  candidate_name := none
  candidate_email := none
  candidate_phone := none
  skills := []
  education := []
  experience := []
  executive_summary := ""
  experience_highlights := []
  education_highlights := []
  interesting_facts := []
  score := 0
  score_breakdown := []
  status := "new"
  tags := []
  notes := ""
  is_parsed := false
  is_scored := false
  parse_error := none
  created_at := now
  updated_at := now
  processed_at := none

/-- The markdown candidate store: one record per `email_id` directory. -/
abbrev FileStore : Type := List (String × CandidateData)

/-- Record under directory `k`, if any. -/
def storeGet : FileStore → String → Option CandidateData
  | [], _ => none
  | (k0, v0) :: t, k => if k0 = k then some v0 else storeGet t k

/-- Write the record for directory `k`, overwriting an existing file. -/
def storeSet : FileStore → String → CandidateData → FileStore
  | [], k, v => [(k, v)]
  | (k0, v0) :: t, k, v => if k0 = k then (k0, v) :: t else (k0, v0) :: storeSet t k v

/-- Number of stored candidate records. -/
def storeCount (s : FileStore) : Nat := s.length

/-- Embeds `FileStorage.save_candidate_metadata`: writes the record under the
candidate's own `email_id`, unconditionally — the function performs no
`documentHash` lookup of any kind. -/
def saveCandidateMetadata (s : FileStore) (c : CandidateData) : FileStore :=
  storeSet s c.email_id c

/-- Embeds the record-creation step of `EmailIngestor._process_message`:
build the `CandidateData` for the selected attachment and save it.  (The
source comments record that the duplicate check was removed: "removed
duplicate check to force reprocessing", "Save all valid attachments (removed
duplicate check for now)".) -/
def processMessageCreate (s : FileStore) (email_id : String) (email_date : Nat)
    (sender_email sender_name subject : String) (best : SavedAttachment)
    (now : Nat) : FileStore :=
  saveCandidateMetadata s
    (newCandidateData email_id email_date sender_email sender_name subject best now)

/-! ## Analysis update (src/services/parse.py,
`_update_candidate_with_parsed_data`)

The parsed-data dict produced by `parse_resume`, restricted to the keys the
update reads.  Education/experience entries are kept as their serialised
string forms, matching the `List[str]` annotations on the dataclass. -/

/-- Parsed-resume fields consumed by `_update_candidate_with_parsed_data`. -/
structure ParsedData where
  name : Option String
  email : Option String
  phone : Option String
  skills : List String
  education : List String
  experience : List String
  executive_summary : String
  interesting_facts : List String
  experience_highlights : List String
  education_highlights : List String
  deriving DecidableEq, Repr

/-- Embeds `_update_candidate_with_parsed_data`: each field is copied only
when Python-truthy (non-`None`, non-empty), **without any encryption** — the
source comments this step "no encryption needed for local files" — then
`is_parsed` is set and `processed_at`/`updated_at` stamped. -/
def updateCandidateWithParsedData (candidate : CandidateData) (parsed : ParsedData)
    (now : Nat) : CandidateData :=
  { candidate with
    candidate_name := match parsed.name with
      | some s => if s = "" then candidate.candidate_name else some s
      | none => candidate.candidate_name
    candidate_email := match parsed.email with
      | some s => if s = "" then candidate.candidate_email else some s
      | none => candidate.candidate_email
    candidate_phone := match parsed.phone with
      | some s => if s = "" then candidate.candidate_phone else some s
      | none => candidate.candidate_phone
    skills := if parsed.skills = [] then candidate.skills else parsed.skills
    education := if parsed.education = [] then candidate.education else parsed.education
    experience := if parsed.experience = [] then candidate.experience else parsed.experience
    executive_summary := if parsed.executive_summary = "" then candidate.executive_summary
      else parsed.executive_summary
    interesting_facts := if parsed.interesting_facts = [] then candidate.interesting_facts
      else parsed.interesting_facts
    experience_highlights := if parsed.experience_highlights = [] then
        candidate.experience_highlights
      else parsed.experience_highlights
    education_highlights := if parsed.education_highlights = [] then
        candidate.education_highlights
      else parsed.education_highlights
    is_parsed := true
    processed_at := some now
    updated_at := now }

/-! ## CandidateStore, relational path (src/models/database.py) -/

/-- String-to-symbol encoding used when handing a Python string to the
cipher (`value.encode()` in `EncryptedType.encrypt`). -/
def strSymbols (s : String) : List Nat := s.data.map Char.toNat

/-- Encrypt a string through the store's cipher (`EncryptedType.encrypt`). -/
def dbEncryptStr (key iv : Nat) (s : String) : FernetToken :=
  fernetEncrypt key iv (strSymbols s)

/-- Columns of the `candidates` table touched by `Database.add_candidate`
(encrypted columns hold cipher tokens, not strings). -/
structure DbCandidate where
  email_id : String
  email_date : Nat
  sender_email : Option String
  sender_name : Option String
  subject : Option String
  resume_filename : Option String
  resume_hash : Option String
  resume_size_bytes : Option Nat
  candidate_name : Option FernetToken
  candidate_email : Option FernetToken
  candidate_phone : Option FernetToken
  resume_text : Option FernetToken
  deriving DecidableEq, Repr

/-- Input dict of `Database.add_candidate`. -/
structure CandidateInsertData where
  email_id : String
  email_date : Nat
  sender_email : Option String
  sender_name : Option String
  subject : Option String
  resume_filename : Option String
  resume_hash : Option String
  resume_size_bytes : Option Nat
  candidate_name : Option String
  candidate_email : Option String
  candidate_phone : Option String
  resume_text : Option String
  deriving DecidableEq, Repr

/-- Python truthiness of an optional string (`if candidate_data.get(k):`). -/
def truthyOptStr : Option String → Bool
  | none => false
  | some s => decide (s ≠ "")

/-- Embeds the column assignments of `Database.add_candidate`: plaintext
metadata copied as-is, sensitive fields encrypted when truthy. -/
def addCandidate (key iv : Nat) (cd : CandidateInsertData) : DbCandidate where
  email_id := cd.email_id
  email_date := cd.email_date
  sender_email := cd.sender_email
  sender_name := cd.sender_name
  subject := cd.subject
  resume_filename := cd.resume_filename
  resume_hash := cd.resume_hash
  resume_size_bytes := cd.resume_size_bytes
  candidate_name :=
    if truthyOptStr cd.candidate_name then (cd.candidate_name.map (dbEncryptStr key iv))
    else none
  candidate_email :=
    if truthyOptStr cd.candidate_email then (cd.candidate_email.map (dbEncryptStr key iv))
    else none
  candidate_phone :=
    if truthyOptStr cd.candidate_phone then (cd.candidate_phone.map (dbEncryptStr key iv))
    else none
  resume_text :=
    if truthyOptStr cd.resume_text then (cd.resume_text.map (dbEncryptStr key iv))
    else none

/-! ## Decision updates (src/models/file_storage.py,
`update_candidate_status`) -/

/-- Embeds `FileStorage.update_candidate_status`: reload the record, set
`status`/`notes`/`tags`, stamp `updated_at`, save; a missing record leaves
the store unchanged. -/
def updateCandidateStatus (s : FileStore) (email_id status notes : String)
    (tags : List String) (now : Nat) : FileStore :=
  match storeGet s email_id with
  | some c =>
    saveCandidateMetadata s
      { c with status := status, notes := notes, tags := tags, updated_at := now }
  | none => s

/-! ## Store state machine (ingest → analyze → score → decide → purge)

Operations over the candidate store as the services implement them:
creation (`_process_message`), analysis (`parse_all_pending` filters to
unparsed records and applies `_update_candidate_with_parsed_data`), scoring
(`score_all_pending` filters to `is_parsed ∧ ¬is_scored` and sets the score
and `is_scored`; `f` assigns each record its computed score), decisions
(`update_candidate_status`) and full purge (`purge_all_data`). -/

inductive StoreOp where
  | create (email_id : String) (email_date : Nat)
      (sender_email sender_name subject : String) (best : SavedAttachment) (now : Nat)
  | analyze (email_id : String) (parsed : ParsedData) (now : Nat)
  | scoreAll (f : String → ℚ)
  | decide_ (email_id status notes : String) (tags : List String) (now : Nat)
  | purge

/-- One store transition. -/
def applyOp (s : FileStore) : StoreOp → FileStore
  | .create email_id email_date se sn subj best now =>
    processMessageCreate s email_id email_date se sn subj best now
  | .analyze email_id parsed now =>
    match storeGet s email_id with
    | some c =>
      if c.is_parsed then s
      else saveCandidateMetadata s (updateCandidateWithParsedData c parsed now)
    | none => s
  | .scoreAll f =>
    s.map (fun kc =>
      if kc.2.is_parsed && !kc.2.is_scored then
        (kc.1, { kc.2 with score := f kc.1, is_scored := true })
      else kc)
  | .decide_ email_id status notes tags now =>
    updateCandidateStatus s email_id status notes tags now
  | .purge => []

/-- Store states reachable from the empty store through the pipeline's
operations. -/
inductive Reachable : FileStore → Prop
  | init : Reachable []
  | step (s : FileStore) (op : StoreOp) : Reachable s → Reachable (applyOp s op)

/-- State-monotonicity invariant: a scored record is always analyzed. -/
def ScoredImpliesParsed (s : FileStore) : Prop :=
  ∀ kc ∈ s, kc.2.is_scored = true → kc.2.is_parsed = true

/-! ## Configuration (src/config.py and src/services/score.py,
`_load_job_profile`) -/

/-- Index of a character in the standard base64 alphabet. -/
def b64Index (c : Char) : Option Nat :=
  if 'A' ≤ c ∧ c ≤ 'Z' then some (c.toNat - 65)
  else if 'a' ≤ c ∧ c ≤ 'z' then some (c.toNat - 97 + 26)
  else if '0' ≤ c ∧ c ≤ '9' then some (c.toNat - 48 + 52)
  else if c = '+' then some 62
  else if c = '/' then some 63
  else none

/-- Decode base64 quartets; `=` padding is legal only at the very end.  A
leftover group of fewer than four characters is Python's
`binascii.Error: Incorrect padding`. -/
def b64Groups : List Char → Option (List Nat)
  | [] => some []
  | c1 :: c2 :: c3 :: c4 :: rest => do
    let i1 ← b64Index c1
    let i2 ← b64Index c2
    if c3 = '=' ∧ c4 = '=' ∧ rest = [] then
      some [i1 * 4 + i2 / 16]
    else
      let i3 ← b64Index c3
      if c4 = '=' ∧ rest = [] then
        some [i1 * 4 + i2 / 16, (i2 % 16) * 16 + i3 / 4]
      else do
        let i4 ← b64Index c4
        let tail ← b64Groups rest
        some ([i1 * 4 + i2 / 16, (i2 % 16) * 16 + i3 / 4, (i3 % 4) * 64 + i4] ++ tail)
  | _ => none

/-- Model of Python `base64.b64decode` (default `validate=False`: characters
outside the alphabet and padding are discarded before decoding). -/
def b64decode (s : String) : Option (List Nat) :=
  b64Groups (s.data.filter (fun c => (b64Index c).isSome || c = '='))

/-- Python truthiness of `os.getenv(var)` (unset or empty is falsy). -/
def envTruthy (v : Option String) : Bool :=
  match v with
  | none => false
  | some s => decide (s ≠ "")

/-- Embeds `Config._validate_env_vars`: raises (here `Except.error`) when any
of `CLIENT_ID`, `TENANT_ID`, `AES_KEY` is unset or empty. -/
def validateEnvVars (client_id tenant_id aes_key : Option String) : Except String Unit :=
  let missing :=
    (if envTruthy client_id then [] else ["CLIENT_ID"])
    ++ (if envTruthy tenant_id then [] else ["TENANT_ID"])
    ++ (if envTruthy aes_key then [] else ["AES_KEY"])
  if missing = [] then .ok ()
  else .error ("Missing required environment variables: " ++ ", ".intercalate missing)

/-- Embeds `Config.aes_key`: base64-decode the environment value; on any
decoding failure, silently substitute a freshly generated key
(`Fernet.generate_key()`, modelled by the `freshKey` argument). -/
def aesKey (envAesKey : Option String) (freshKey : List Nat) : List Nat :=
  let key_str := envAesKey.getD ""
  match b64decode key_str with
  | some k => k
  | none => freshKey

/-- The job profile `{}` that `_load_job_profile` returns on failure. -/
def emptyProfile : JobProfile := ⟨none, ⟨[], [], []⟩, ⟨[], []⟩, ⟨0, none, []⟩⟩

/-- Embeds `CandidateScorer._load_job_profile`: the result of opening and
parsing the YAML file; any exception is logged and replaced by `{}`. -/
def loadJobProfile (readResult : Except String JobProfile) : JobProfile :=
  match readResult with
  | .ok p => p
  | .error _ => emptyProfile

/-! ## Concrete inputs used by counterexamples and witnesses -/

/-- Record created from message `m1` carrying document hash `h`. -/
def cexMsg1Candidate : CandidateData :=
  newCandidateData "m1" 0 "alice@mail" "Alice Sender" "resume" ⟨"r1.pdf", "h", 100⟩ 0

/-- Record created from message `m2` carrying the same document hash `h`
under a different filename and sender. -/
def cexMsg2Candidate : CandidateData :=
  newCandidateData "m2" 1 "bob@mail" "Bob Sender" "cv" ⟨"r2.pdf", "h", 200⟩ 1

/-- Store after ingesting message `m1`. -/
def cexStore1 : FileStore :=
  processMessageCreate [] "m1" 0 "alice@mail" "Alice Sender" "resume" ⟨"r1.pdf", "h", 100⟩ 0

/-- Store after then ingesting message `m2`, whose document bytes hash to the
already-present `h`. -/
def cexStore2 : FileStore :=
  processMessageCreate cexStore1 "m2" 1 "bob@mail" "Bob Sender" "cv" ⟨"r2.pdf", "h", 200⟩ 1

/-- Analysis result carrying PII for candidate Alice. -/
def parsedAlice : ParsedData :=
  ⟨some "Alice", some "alice@example.com", some "555-0100", ["python"],
    ["BSc Computer Science"], ["5 years at X"], "Seasoned engineer", [], [], []⟩

/-- Store after the analysis step persists Alice's parsed fields for `m1`. -/
def cexParsedStore : FileStore :=
  saveCandidateMetadata cexStore1 (updateCandidateWithParsedData cexMsg1Candidate parsedAlice 2)

/-- Two attachments of one message: a small cover letter first, a large
`John_Resume.pdf` second. -/
def cexAttachments : List SavedAttachment :=
  [⟨"cover_letter.docx", "h1", 20000⟩, ⟨"John_Resume.pdf", "h2", 300000⟩]


/-! ## Theorems -/

theorem decSeq_encSeq (key iv : Nat) :
    ∀ (i : Nat) (p : List Nat), (∀ b ∈ p, b < symModulus) →
      decSeq key iv i (encSeq key iv i p) = p := by
  intro i p
  induction p generalizing i with
  | nil => intro _; rfl
  | cons b bs ih =>
    intro hb
    have hblt : b < symModulus := hb b (List.mem_cons_self b bs)
    have hks : keystream key iv i < symModulus :=
      Nat.mod_lt _ (by simp only [symModulus]; omega)
    simp only [encSeq, decSeq, List.cons.injEq]
    refine ⟨?_, ih (i + 1) (fun x hx => hb x (List.mem_cons_of_mem b hx))⟩
    simp only [symModulus] at *
    omega

theorem length_encSeq (key iv : Nat) : ∀ (i : Nat) (p : List Nat),
    (encSeq key iv i p).length = p.length := by
  intro i p
  induction p generalizing i with
  | nil => rfl
  | cons b bs ih => simp [encSeq, ih]

/-- Claim C9: encrypting any plaintext through the store's cipher and
decrypting the token returns exactly the original plaintext; any token with
one symbol of the ciphertext body altered, with the nonce altered, or with
the tag altered is rejected by decryption (`none`) rather than decrypted to
any plaintext.  Reason starts spec-modelled: the Fernet cipher itself is an
external library, modelled from the spec's cipher contract. -/
theorem claim_C9_cipher_roundtrip_and_tamper
    (key iv iv2 m v w : Nat) (p a b : List Nat)
    (hp : ∀ x ∈ p, x < symModulus)
    (hsplit : (fernetEncrypt key iv p).ct = a ++ w :: b)
    (hvw : v ≠ w)
    (hm : m ≠ (fernetEncrypt key iv p).mac)
    (hiv : iv2 ≠ iv) :
    fernetDecrypt key (fernetEncrypt key iv p) = some p
    ∧ fernetDecrypt key ⟨iv, a ++ v :: b, (fernetEncrypt key iv p).mac⟩ = none
    ∧ fernetDecrypt key ⟨iv, (fernetEncrypt key iv p).ct, m⟩ = none
    ∧ fernetDecrypt key ⟨iv2, (fernetEncrypt key iv p).ct, (fernetEncrypt key iv p).mac⟩
        = none := by
  refine ⟨?_, ?_, ?_, ?_⟩
  · simp only [fernetEncrypt, fernetDecrypt, if_pos rfl]
    exact congrArg some (decSeq_encSeq key iv 0 p hp)
  · have hsum : (a ++ v :: b).sum ≠ (a ++ w :: b).sum := by
      simp only [List.sum_append, List.sum_cons]
      omega
    simp only [fernetEncrypt, fernetDecrypt, macOf] at hsplit ⊢
    rw [hsplit]
    simp only [List.sum_append, List.sum_cons] at hsum ⊢
    rw [if_neg (by omega)]
  · simp only [fernetEncrypt, fernetDecrypt, macOf] at hm ⊢
    rw [if_neg hm]
  · simp only [fernetEncrypt, fernetDecrypt, macOf]
    rw [if_neg (by omega)]

/-- Witness for C9 at a concrete key, nonce and plaintext. -/
theorem claim_C9_witness :
    fernetDecrypt 5 (fernetEncrypt 5 3 [72, 105]) = some [72, 105]
    ∧ fernetDecrypt 5 ⟨3, [170] ++ 9 :: [], (fernetEncrypt 5 3 [72, 105]).mac⟩ = none
    ∧ fernetDecrypt 5 ⟨3, (fernetEncrypt 5 3 [72, 105]).ct, 0⟩ = none
    ∧ fernetDecrypt 5 ⟨4, (fernetEncrypt 5 3 [72, 105]).ct,
        (fernetEncrypt 5 3 [72, 105]).mac⟩ = none :=
  claim_C9_cipher_roundtrip_and_tamper 5 3 4 0 9 210 [72, 105] [170] []
    (by decide) (by decide) (by decide) (by decide) (by decide)

theorem countMatches_eq_card_inter (R C : List String) (h : R.Nodup) :
    countMatches R C = (R.toFinset ∩ C.toFinset).card := by
  induction R with
  | nil => simp [countMatches]
  | cons a t ih =>
    rcases List.nodup_cons.mp h with ⟨ha, ht⟩
    by_cases hc : a ∈ C
    · have h1 : countMatches (a :: t) C = countMatches t C + 1 := by
        simp [countMatches, hc]
      rw [h1, ih ht, List.toFinset_cons,
        Finset.insert_inter_of_mem (by simpa using hc),
        Finset.card_insert_of_not_mem (by simp [ha])]
    · have h1 : countMatches (a :: t) C = countMatches t C := by
        simp [countMatches, hc]
      rw [h1, ih ht, List.toFinset_cons,
        Finset.insert_inter_of_not_mem (by simpa using hc)]

/-- Counterexample for C5: the claim's set formula does not hold for every
job profile.  With `required = ["Python", "python", "sql"]` — whose
lowercased entries repeat `python` — and candidate skills `{python}`,
`_score_skills` counts per list entry and computes `(2/3)*0.6 = 2/5 = 0.4`,
while the claimed formula over the skill *sets* gives
`(|R∩C|/|R|)*0.6 = (1/2)*0.6 = 3/10 = 0.3`; the two disagree. -/
theorem claim_C5_counterexample :
    scoreSkills dupSkillsProfile dupSkillsCandidate = 2 / 5
    ∧ specSkillsFactor (dupSkillsProfile.skills.required.map lowerStr).toFinset
        (dupSkillsProfile.skills.preferred.map lowerStr).toFinset
        (dupSkillsProfile.skills.nice_to_have.map lowerStr).toFinset
        (dupSkillsCandidate.skills.map lowerStr).toFinset = 3 / 10
    ∧ scoreSkills dupSkillsProfile dupSkillsCandidate
        ≠ specSkillsFactor (dupSkillsProfile.skills.required.map lowerStr).toFinset
            (dupSkillsProfile.skills.preferred.map lowerStr).toFinset
            (dupSkillsProfile.skills.nice_to_have.map lowerStr).toFinset
            (dupSkillsCandidate.skills.map lowerStr).toFinset := by
  have h1 : scoreSkills dupSkillsProfile dupSkillsCandidate = 2 / 5 := by
    have hm1 : List.map lowerStr dupSkillsProfile.skills.required
        = ["python", "python", "sql"] := by decide
    have hm2 : List.map lowerStr dupSkillsProfile.skills.preferred = [] := rfl
    have hm3 : List.map lowerStr dupSkillsProfile.skills.nice_to_have = [] := rfl
    have hm4 : List.map lowerStr dupSkillsCandidate.skills = ["python"] := by decide
    have hc1 : countMatches ["python", "python", "sql"] ["python"] = 2 := by decide
    have hc3 : countMatches [] ["python"] = 0 := rfl
    simp only [scoreSkills, hm1, hm2, hm3, hm4, hc1, hc3]
    norm_num [min_def,
      show ((["python", "python", "sql"] : List String) ≠ []) from by decide]
  have h2 : specSkillsFactor (dupSkillsProfile.skills.required.map lowerStr).toFinset
      (dupSkillsProfile.skills.preferred.map lowerStr).toFinset
      (dupSkillsProfile.skills.nice_to_have.map lowerStr).toFinset
      (dupSkillsCandidate.skills.map lowerStr).toFinset = 3 / 10 := by
    have hR : (dupSkillsProfile.skills.required.map lowerStr).toFinset
        = ({"python", "sql"} : Finset String) := by decide
    have hP : (dupSkillsProfile.skills.preferred.map lowerStr).toFinset
        = (∅ : Finset String) := rfl
    have hN : (dupSkillsProfile.skills.nice_to_have.map lowerStr).toFinset
        = (∅ : Finset String) := rfl
    have hC : (dupSkillsCandidate.skills.map lowerStr).toFinset
        = ({"python"} : Finset String) := by decide
    have hRC : (({"python", "sql"} : Finset String) ∩ {"python"}).card = 1 := by decide
    have hEC : ((∅ : Finset String) ∩ ({"python"} : Finset String)).card = 0 := rfl
    have hRcard : ({"python", "sql"} : Finset String).card = 2 := by decide
    have hRne : ¬(({"python", "sql"} : Finset String) = ∅) := by decide
    simp only [specSkillsFactor, hR, hP, hN, hC, hRC, hEC, hRcard]
    norm_num [min_def, hRne]
  refine ⟨h1, h2, ?_⟩
  rw [h1, h2]
  norm_num

/-- Claim C5 (amended): `_score_skills` counts matches per list entry, so it
computes the claimed set formula exactly on profiles whose skill lists are
duplicate-free after lowercasing (then list counts coincide with the set
cardinalities `|R∩C|`, `|P∩C|`, `|N∩C|`); a repeated entry, as in the
counterexample, makes the two diverge.  On Scenario C with
`required=["python","sql"]`, `preferred=["aws"]` and candidate skills
`python, aws, docker` the factor is exactly `0.6`. -/
theorem claim_C5_skills_factor (profile : JobProfile) (cand : CandidateDict)
    (hR : (profile.skills.required.map lowerStr).Nodup)
    (hP : (profile.skills.preferred.map lowerStr).Nodup)
    (hN : (profile.skills.nice_to_have.map lowerStr).Nodup) :
    scoreSkills profile cand
      = specSkillsFactor (profile.skills.required.map lowerStr).toFinset
          (profile.skills.preferred.map lowerStr).toFinset
          (profile.skills.nice_to_have.map lowerStr).toFinset
          (cand.skills.map lowerStr).toFinset
    ∧ scoreSkills scenarioCProfile scenarioCCandidate = 0.6 := by
  constructor
  · have eR := countMatches_eq_card_inter (profile.skills.required.map lowerStr)
      (cand.skills.map lowerStr) hR
    have eP := countMatches_eq_card_inter (profile.skills.preferred.map lowerStr)
      (cand.skills.map lowerStr) hP
    have eN := countMatches_eq_card_inter (profile.skills.nice_to_have.map lowerStr)
      (cand.skills.map lowerStr) hN
    have lR := List.toFinset_card_of_nodup hR
    have lP := List.toFinset_card_of_nodup hP
    have lN := List.toFinset_card_of_nodup hN
    simp only [scoreSkills, specSkillsFactor, eR, eP, eN, lR, lP, lN,
      List.toFinset_eq_empty_iff]
  · have hm1 : List.map lowerStr scenarioCProfile.skills.required = ["python", "sql"] := by
      decide
    have hm2 : List.map lowerStr scenarioCProfile.skills.preferred = ["aws"] := by decide
    have hm3 : List.map lowerStr scenarioCProfile.skills.nice_to_have = [] := rfl
    have hm4 : List.map lowerStr scenarioCCandidate.skills = ["python", "aws", "docker"] := by
      decide
    have hc1 : countMatches ["python", "sql"] ["python", "aws", "docker"] = 1 := by decide
    have hc2 : countMatches ["aws"] ["python", "aws", "docker"] = 1 := by decide
    have hc3 : countMatches [] ["python", "aws", "docker"] = 0 := rfl
    simp only [scoreSkills, hm1, hm2, hm3, hm4, hc1, hc2, hc3]
    norm_num [min_def, show ((["python", "sql"] : List String) ≠ []) from by decide]

/-- Witness for C5 at the Scenario C profile and candidate. -/
theorem claim_C5_witness :
    (scoreSkills scenarioCProfile scenarioCCandidate
      = specSkillsFactor (scenarioCProfile.skills.required.map lowerStr).toFinset
          (scenarioCProfile.skills.preferred.map lowerStr).toFinset
          (scenarioCProfile.skills.nice_to_have.map lowerStr).toFinset
          (scenarioCCandidate.skills.map lowerStr).toFinset
    ∧ scoreSkills scenarioCProfile scenarioCCandidate = 0.6) :=
  claim_C5_skills_factor scenarioCProfile scenarioCCandidate
    (by decide) (by decide) (by decide)

theorem min_one_unit {x : ℚ} (hx : 0 ≤ x) : 0 ≤ min 1 x ∧ min 1 x ≤ 1 :=
  ⟨le_min (by norm_num) hx, min_le_left _ _⟩

theorem ite_nonneg {c : Prop} [Decidable c] {a b : ℚ} (ha : 0 ≤ a) (hb : 0 ≤ b) :
    0 ≤ if c then a else b := by
  split_ifs <;> assumption

theorem min_one_boost_unit {base : ℚ} (hb : 0 ≤ base) (c : Prop) [inst : Decidable c] :
    0 ≤ min 1 (if c then min 1 (base * 1.1) else base)
    ∧ min 1 (if c then min 1 (base * 1.1) else base) ≤ 1 := by
  refine min_one_unit ?_
  split_ifs
  · exact le_min (by norm_num) (mul_nonneg hb (by norm_num))
  · exact hb

theorem scoreSkills_bounds (p : JobProfile) (c : CandidateDict) :
    0 ≤ scoreSkills p c ∧ scoreSkills p c ≤ 1 := by
  simp only [scoreSkills]
  by_cases h0 : (List.map lowerStr p.skills.required = []
      ∧ List.map lowerStr p.skills.preferred = [])
  · rw [if_pos h0]
    norm_num
  · rw [if_neg h0]
    refine min_one_boost_unit ?_ _
    refine add_nonneg (add_nonneg ?_ ?_) ?_ <;>
      exact ite_nonneg le_rfl (by positivity)

theorem scoreEducation_bounds (p : JobProfile) (c : CandidateDict) :
    0 ≤ scoreEducation p c ∧ scoreEducation p c ≤ 1 := by
  simp only [scoreEducation]
  split_ifs
  all_goals norm_num

theorem getTotalExperienceYears_nonneg (c : CandidateDict)
    (h : ∀ e ∈ c.experience, 0 ≤ e.years) : 0 ≤ getTotalExperienceYears c := by
  unfold getTotalExperienceYears
  split_ifs with he
  · unfold extractYearsFromText
    rcases hs : searchYears (lowerStr c.resume_text).data with _ | n <;> simp [hs]
  · refine List.sum_nonneg ?_
    intro x hx
    rcases List.mem_map.mp hx with ⟨e, he, rfl⟩
    exact h e he

theorem scoreExperience_bounds (p : JobProfile) (c : CandidateDict)
    (h : ∀ e ∈ c.experience, 0 ≤ e.years) :
    0 ≤ scoreExperience p c ∧ scoreExperience p c ≤ 1 := by
  have hty := getTotalExperienceYears_nonneg c h
  simp only [scoreExperience]
  set ty := getTotalExperienceYears c with hty_def
  set mn := p.experience.minimum_years with hmn
  set pf := p.experience.preferred_years.getD p.experience.minimum_years with hpf
  refine ⟨?_, min_le_left _ _⟩
  have hds : (0:ℚ) ≤ (if p.experience.required_domains.map lowerStr = [] then 1
      else (((p.experience.required_domains.map lowerStr).filter
        (fun d => strIncludes (lowerStr c.resume_text) d)).length : ℚ)
        / ((p.experience.required_domains.map lowerStr).length : ℚ)) := by
    split_ifs <;> positivity
  have hys : (0:ℚ) ≤ (if ty ≥ pf then 1
      else if ty ≥ mn then 0.7 + (ty - mn) / (pf - mn) * 0.3
      else if mn > 0 then ty / mn * 0.7 else 0.5) := by
    split_ifs with h1 h2 h3
    · norm_num
    · have hd : (0:ℚ) < pf - mn := by
        push_neg at h1
        linarith
      have : (0:ℚ) ≤ (ty - mn) / (pf - mn) := div_nonneg (by linarith) (by linarith)
      linarith
    · have : (0:ℚ) ≤ ty / mn := div_nonneg hty (by linarith)
      linarith
    · norm_num
  refine le_min (by norm_num) ?_
  nlinarith [hys, hds]

/-- Counterexample for C4: with the valid (non-negative) weights
`skills=300, education=0, experience=0` — the spec itself says weights need
not sum to 100 — a fully matching candidate is reported a total of 180,
outside the claimed 0–100 range. -/
theorem claim_C4_counterexample :
    scoreCandidateTotal badWeightsProfile badWeightsCandidate = 180
    ∧ ¬ scoreCandidateTotal badWeightsProfile badWeightsCandidate ≤ 100 := by
  have hs : scoreSkills badWeightsProfile badWeightsCandidate = 0.6 := by
    have hm1 : List.map lowerStr badWeightsProfile.skills.required = ["python"] := by decide
    have hm2 : List.map lowerStr badWeightsProfile.skills.preferred = [] := rfl
    have hm3 : List.map lowerStr badWeightsProfile.skills.nice_to_have = [] := rfl
    have hm4 : List.map lowerStr badWeightsCandidate.skills = ["python"] := by decide
    have hc1 : countMatches ["python"] ["python"] = 1 := by decide
    have hc3 : countMatches [] ["python"] = 0 := rfl
    simp only [scoreSkills, hm1, hm2, hm3, hm4, hc1, hc3]
    norm_num [min_def, show ((["python"] : List String) ≠ []) from by decide]
  have he : scoreEducation badWeightsProfile badWeightsCandidate = 0 := by decide
  have hty : getTotalExperienceYears badWeightsCandidate = 0 := by decide
  have hx : scoreExperience badWeightsProfile badWeightsCandidate = 1 := by
    have hmn : badWeightsProfile.experience.minimum_years = 0 := rfl
    have hpf : badWeightsProfile.experience.preferred_years = none := rfl
    have hdom : badWeightsProfile.experience.required_domains = [] := rfl
    simp only [scoreExperience, hty, hmn, hpf, hdom, Option.getD_none, List.map_nil]
    norm_num [min_def]
  have hw : badWeightsProfile.weights.getD defaultWeights = ⟨300, 0, 0⟩ := rfl
  have htot : scoreCandidateTotal badWeightsProfile badWeightsCandidate = 180 := by
    simp only [scoreCandidateTotal, hs, he, hx, hw]
    norm_num
  exact ⟨htot, by rw [htot]; norm_num⟩

/-- Claim C4 (amended): the reported total equals
`score_skills*weights.skills + score_education*weights.education +
score_experience*weights.experience` (the `/100` and the `*100` reporting
rescale cancel), each factor lies in `[0,1]`, the total is non-negative, and
it is bounded by 100 whenever the weights sum to at most 100 (for weights
summing above 100 the scale is distorted, as the spec notes). -/
theorem claim_C4_total_formula_and_bounds (p : JobProfile) (c : CandidateDict)
    (hws : 0 ≤ (p.weights.getD defaultWeights).skills)
    (hwe : 0 ≤ (p.weights.getD defaultWeights).education)
    (hwx : 0 ≤ (p.weights.getD defaultWeights).experience)
    (hyears : ∀ e ∈ c.experience, 0 ≤ e.years) :
    scoreCandidateTotal p c
      = scoreSkills p c * (p.weights.getD defaultWeights).skills
        + scoreEducation p c * (p.weights.getD defaultWeights).education
        + scoreExperience p c * (p.weights.getD defaultWeights).experience
    ∧ (0 ≤ scoreSkills p c ∧ scoreSkills p c ≤ 1)
    ∧ (0 ≤ scoreEducation p c ∧ scoreEducation p c ≤ 1)
    ∧ (0 ≤ scoreExperience p c ∧ scoreExperience p c ≤ 1)
    ∧ 0 ≤ scoreCandidateTotal p c
    ∧ ((p.weights.getD defaultWeights).skills + (p.weights.getD defaultWeights).education
        + (p.weights.getD defaultWeights).experience ≤ 100 →
        scoreCandidateTotal p c ≤ 100) := by
  obtain ⟨hs0, hs1⟩ := scoreSkills_bounds p c
  obtain ⟨he0, he1⟩ := scoreEducation_bounds p c
  obtain ⟨hx0, hx1⟩ := scoreExperience_bounds p c hyears
  have hform : scoreCandidateTotal p c
      = scoreSkills p c * (p.weights.getD defaultWeights).skills
        + scoreEducation p c * (p.weights.getD defaultWeights).education
        + scoreExperience p c * (p.weights.getD defaultWeights).experience := by
    simp only [scoreCandidateTotal]
    ring
  refine ⟨hform, ⟨hs0, hs1⟩, ⟨he0, he1⟩, ⟨hx0, hx1⟩, ?_, ?_⟩
  · rw [hform]
    have := mul_nonneg hs0 hws
    have := mul_nonneg he0 hwe
    have := mul_nonneg hx0 hwx
    linarith
  · intro hsum
    rw [hform]
    have h1 := mul_le_of_le_one_left hws hs1
    have h2 := mul_le_of_le_one_left hwe he1
    have h3 := mul_le_of_le_one_left hwx hx1
    linarith

/-- Witness for C4 (amended) at the Scenario C profile, whose weights sum to
exactly 100. -/
theorem claim_C4_witness :
    scoreCandidateTotal scenarioCProfile scenarioCCandidate
      = scoreSkills scenarioCProfile scenarioCCandidate
          * (scenarioCProfile.weights.getD defaultWeights).skills
        + scoreEducation scenarioCProfile scenarioCCandidate
          * (scenarioCProfile.weights.getD defaultWeights).education
        + scoreExperience scenarioCProfile scenarioCCandidate
          * (scenarioCProfile.weights.getD defaultWeights).experience
    ∧ (0 ≤ scoreSkills scenarioCProfile scenarioCCandidate
        ∧ scoreSkills scenarioCProfile scenarioCCandidate ≤ 1)
    ∧ (0 ≤ scoreEducation scenarioCProfile scenarioCCandidate
        ∧ scoreEducation scenarioCProfile scenarioCCandidate ≤ 1)
    ∧ (0 ≤ scoreExperience scenarioCProfile scenarioCCandidate
        ∧ scoreExperience scenarioCProfile scenarioCCandidate ≤ 1)
    ∧ 0 ≤ scoreCandidateTotal scenarioCProfile scenarioCCandidate
    ∧ ((scenarioCProfile.weights.getD defaultWeights).skills
        + (scenarioCProfile.weights.getD defaultWeights).education
        + (scenarioCProfile.weights.getD defaultWeights).experience ≤ 100 →
        scoreCandidateTotal scenarioCProfile scenarioCCandidate ≤ 100) :=
  claim_C4_total_formula_and_bounds scenarioCProfile scenarioCCandidate
    (by decide) (by decide) (by decide) (by decide)

/-- Claim C10: the experience factor never divides by zero — the
interpolation branch is reached only when `minimum ≤ years < preferred`
(forcing a positive denominator, and unreachable when `preferred_years`
defaults to `minimum_years`), the `years/minimum` division sits under the
`minimum > 0` guard, and the domain ratio divides only by a non-empty
domain-list length.  Hence the denominator-checked mirror of
`_score_experience` succeeds on every input with the same value. -/
theorem claim_C10_no_division_by_zero (profile : JobProfile) (cand : CandidateDict) :
    scoreExperienceChecked profile cand = some (scoreExperience profile cand) := by
  simp only [scoreExperience, scoreExperienceChecked]
  set ty := getTotalExperienceYears cand with hty
  set mn := profile.experience.minimum_years with hmn
  set pf := profile.experience.preferred_years.getD profile.experience.minimum_years with hpf
  split_ifs with h1 h2 h3 h4 h5 h6 <;>
    first
      | rfl
      | (exfalso; push_neg at *; try simp_all; try linarith)

/-! ## Store lemmas -/

theorem storeGet_storeSet_self (s : FileStore) (k : String) (v : CandidateData) :
    storeGet (storeSet s k v) k = some v := by
  induction s with
  | nil => simp [storeSet, storeGet]
  | cons kv t ih =>
    by_cases h : kv.1 = k
    · simp [storeSet, storeGet, h]
    · simp [storeSet, storeGet, h, ih]

theorem storeGet_storeSet_ne (s : FileStore) (k k2 : String) (v : CandidateData)
    (h : k2 ≠ k) : storeGet (storeSet s k v) k2 = storeGet s k2 := by
  induction s with
  | nil => simp [storeSet, storeGet, Ne.symm h]
  | cons kv t ih =>
    obtain ⟨k0, v0⟩ := kv
    by_cases hk : k0 = k
    · subst hk
      simp [storeSet, storeGet, Ne.symm h]
    · simp only [storeSet, if_neg hk, storeGet]
      by_cases h2 : k0 = k2
      · simp [h2]
      · simp [h2, ih]

theorem storeCount_storeSet (s : FileStore) (k : String) (v : CandidateData) :
    (storeSet s k v).length
      = if (storeGet s k).isSome then s.length else s.length + 1 := by
  induction s with
  | nil => simp [storeSet, storeGet]
  | cons kv t ih =>
    obtain ⟨k0, v0⟩ := kv
    by_cases h : k0 = k
    · simp [storeSet, storeGet, h]
    · simp only [storeSet, if_neg h, storeGet, List.length_cons, ih]
      split_ifs <;> rfl

theorem storeGet_mem (s : FileStore) (k : String) (v : CandidateData)
    (h : storeGet s k = some v) : (k, v) ∈ s := by
  induction s with
  | nil => simp [storeGet] at h
  | cons kv t ih =>
    obtain ⟨k0, v0⟩ := kv
    by_cases hk : k0 = k
    · rw [storeGet, if_pos hk] at h
      subst hk
      cases h
      exact List.mem_cons_self _ _
    · rw [storeGet, if_neg hk] at h
      exact List.mem_cons_of_mem _ (ih h)

theorem mem_storeSet (s : FileStore) (k : String) (v : CandidateData)
    (x : String × CandidateData) (h : x ∈ storeSet s k v) : x = (k, v) ∨ x ∈ s := by
  induction s with
  | nil => simpa [storeSet] using h
  | cons kv t ih =>
    obtain ⟨k0, v0⟩ := kv
    by_cases hk : k0 = k
    · rw [storeSet, if_pos hk] at h
      subst hk
      rcases List.mem_cons.mp h with rfl | hx
      · exact Or.inl rfl
      · exact Or.inr (List.mem_cons_of_mem _ hx)
    · rw [storeSet, if_neg hk] at h
      rcases List.mem_cons.mp h with rfl | hx
      · exact Or.inr (List.mem_cons_self _ _)
      · rcases ih hx with rfl | hx2
        · exact Or.inl rfl
        · exact Or.inr (List.mem_cons_of_mem _ hx2)

/-! ## Selection lemmas -/

theorem sortDesc_head_eq_firstMax (l : List SavedAttachment) :
    (sortDesc l).head? = selectFirstSeenMax l := by
  induction l with
  | nil => rfl
  | cons a l ih =>
    simp only [sortDesc, selectFirstSeenMax]
    cases hs : sortDesc l with
    | nil =>
      have hnone : selectFirstSeenMax l = none := by rw [← ih, hs]; rfl
      rw [hnone]
      rfl
    | cons b t =>
      have hb : selectFirstSeenMax l = some b := by rw [← ih, hs]; rfl
      rw [hb]
      simp only [insertDesc]
      by_cases h : attachmentScore b ≤ attachmentScore a
      · rw [if_pos h, if_neg (by omega)]
        rfl
      · rw [if_neg h, if_pos (by omega)]
        rfl

theorem firstMax_eq_none (l : List SavedAttachment)
    (h : selectFirstSeenMax l = none) : l = [] := by
  cases l with
  | nil => rfl
  | cons a t =>
    exfalso
    cases ht : selectFirstSeenMax t with
    | none =>
      simp only [selectFirstSeenMax, ht] at h
      exact Option.some_ne_none a h
    | some c =>
      simp only [selectFirstSeenMax, ht] at h
      split_ifs at h

theorem firstMax_mem (l : List SavedAttachment) (b : SavedAttachment)
    (h : selectFirstSeenMax l = some b) : b ∈ l := by
  induction l generalizing b with
  | nil => simp [selectFirstSeenMax] at h
  | cons a t ih =>
    cases ht : selectFirstSeenMax t with
    | none =>
      simp only [selectFirstSeenMax, ht, Option.some.injEq] at h
      subst h
      exact List.mem_cons_self _ _
    | some c =>
      simp only [selectFirstSeenMax, ht] at h
      by_cases hgt : attachmentScore c > attachmentScore a
      · rw [if_pos hgt] at h
        simp only [Option.some.injEq] at h
        subst h
        exact List.mem_cons_of_mem _ (ih _ ht)
      · rw [if_neg hgt] at h
        simp only [Option.some.injEq] at h
        subst h
        exact List.mem_cons_self _ _

theorem firstMax_is_max (l : List SavedAttachment) (b : SavedAttachment)
    (h : selectFirstSeenMax l = some b) :
    ∀ x ∈ l, attachmentScore x ≤ attachmentScore b := by
  induction l generalizing b with
  | nil => simp [selectFirstSeenMax] at h
  | cons a t ih =>
    cases ht : selectFirstSeenMax t with
    | none =>
      have hnil : t = [] := firstMax_eq_none t ht
      subst hnil
      simp only [selectFirstSeenMax, Option.some.injEq] at h
      subst h
      intro x hx
      rcases List.mem_cons.mp hx with rfl | hx2
      · exact le_refl _
      · simp at hx2
    | some c =>
      simp only [selectFirstSeenMax, ht] at h
      by_cases hgt : attachmentScore c > attachmentScore a
      · rw [if_pos hgt] at h
        simp only [Option.some.injEq] at h
        subst h
        intro x hx
        rcases List.mem_cons.mp hx with rfl | hx2
        · omega
        · exact ih _ ht x hx2
      · rw [if_neg hgt] at h
        simp only [Option.some.injEq] at h
        subst h
        intro x hx
        rcases List.mem_cons.mp hx with rfl | hx2
        · exact le_refl _
        · exact le_trans (ih _ ht x hx2) (by omega)

/-- Claim C6: `_select_best_resume` computes exactly the claimed selection —
each attachment is scored by the claimed name/size/extension rules
(`attachmentScoreSpec`), and the stable descending sort and take-first of the
code returns precisely the first-seen attachment of maximal score, so the
result is an attachment of maximal score with ties broken by first-seen
order; determinism holds because the selection is a pure function of the
attachment list. -/
theorem claim_C6_best_resume_selection (atts : List SavedAttachment) :
    selectBestResume atts = selectFirstSeenMax atts
    ∧ (∀ att, attachmentScore att = attachmentScoreSpec att)
    ∧ (∀ b, selectBestResume atts = some b →
        b ∈ atts ∧ ∀ a ∈ atts, attachmentScore a ≤ attachmentScore b) := by
  have hsel : selectBestResume atts = selectFirstSeenMax atts := by
    rw [selectBestResume]
    split_ifs with h
    · cases atts with
      | nil => simp at h
      | cons a t =>
        cases t with
        | nil => rfl
        | cons b u => simp at h
    · exact sortDesc_head_eq_firstMax atts
  refine ⟨hsel, ?_, ?_⟩
  · intro att
    simp only [attachmentScore, attachmentScoreSpec]
    split_ifs <;> omega
  · intro b hb
    rw [hsel] at hb
    exact ⟨firstMax_mem atts b hb, firstMax_is_max atts b hb⟩

/-- Witness for C6 on a concrete two-attachment message: the large
`John_Resume.pdf` (score 17) is selected over the small cover letter. -/
theorem claim_C6_witness :
    selectBestResume cexAttachments = selectFirstSeenMax cexAttachments
    ∧ attachmentScore ⟨"John_Resume.pdf", "h2", 300000⟩
        = attachmentScoreSpec ⟨"John_Resume.pdf", "h2", 300000⟩
    ∧ ((⟨"John_Resume.pdf", "h2", 300000⟩ : SavedAttachment) ∈ cexAttachments
        ∧ ∀ a ∈ cexAttachments,
            attachmentScore a ≤ attachmentScore ⟨"John_Resume.pdf", "h2", 300000⟩) :=
  ⟨(claim_C6_best_resume_selection cexAttachments).1,
   (claim_C6_best_resume_selection cexAttachments).2.1 _,
   (claim_C6_best_resume_selection cexAttachments).2.2 _ (by decide)⟩

/-! ## Dedup claims -/

/-- Counterexample for C1: after ingesting message `m1` with document hash
`h`, ingesting message `m2` whose document has the same hash `h` still
writes: the record count grows from 1 to 2 and both stored records carry
`documentHash = "h"` — the create path performs no dedup (its duplicate
check was removed) and two records may share a document hash. -/
theorem claim_C1_counterexample :
    storeCount cexStore1 = 1
    ∧ (storeGet cexStore1 "m1").map (fun c => c.resume_hash) = some "h"
    ∧ storeCount cexStore2 = 2
    ∧ (storeGet cexStore2 "m1").map (fun c => c.resume_hash) = some "h"
    ∧ (storeGet cexStore2 "m2").map (fun c => c.resume_hash) = some "h" := by
  decide

/-- Claim C1 (amended): the create path writes unconditionally — it never
consults existing records' document hashes.  Saving the new record keyed by
its `sourceMessageId` grows the count by one exactly when that message id is
new (re-processing the same message overwrites its own record in place), the
new record is stored as given, and records of other messages are untouched;
a duplicate `documentHash` under a fresh message id therefore produces a
second record rather than a `Duplicate` no-op. -/
theorem claim_C1_create_always_writes (s : FileStore) (c : CandidateData) :
    storeCount (saveCandidateMetadata s c)
      = (if (storeGet s c.email_id).isSome then storeCount s else storeCount s + 1)
    ∧ storeGet (saveCandidateMetadata s c) c.email_id = some c
    ∧ ∀ k, k ≠ c.email_id → storeGet (saveCandidateMetadata s c) k = storeGet s k :=
  ⟨storeCount_storeSet s c.email_id c,
   storeGet_storeSet_self s c.email_id c,
   fun k hk => storeGet_storeSet_ne s c.email_id k c hk⟩

/-- Witness for C1 (amended) at the concrete duplicate-hash ingestion. -/
theorem claim_C1_witness :
    storeCount (saveCandidateMetadata cexStore1 cexMsg2Candidate)
      = (if (storeGet cexStore1 cexMsg2Candidate.email_id).isSome then storeCount cexStore1
        else storeCount cexStore1 + 1)
    ∧ storeGet (saveCandidateMetadata cexStore1 cexMsg2Candidate) cexMsg2Candidate.email_id
        = some cexMsg2Candidate
    ∧ storeGet (saveCandidateMetadata cexStore1 cexMsg2Candidate) "m1"
        = storeGet cexStore1 "m1" :=
  ⟨(claim_C1_create_always_writes cexStore1 cexMsg2Candidate).1,
   (claim_C1_create_always_writes cexStore1 cexMsg2Candidate).2.1,
   (claim_C1_create_always_writes cexStore1 cexMsg2Candidate).2.2 "m1" (by decide)⟩

/-! ## Encryption-at-rest claims -/

theorem charToNat_lt_symModulus (c : Char) : c.toNat < symModulus := by
  have h := c.valid
  simp only [symModulus]
  rcases h with h | ⟨h1, h2⟩
  · exact lt_trans h (by norm_num)
  · exact h2

theorem strSymbols_lt (s : String) : ∀ x ∈ strSymbols s, x < symModulus := by
  intro x hx
  rcases List.mem_map.mp hx with ⟨c, _, rfl⟩
  exact charToNat_lt_symModulus c

/-- Counterexample for C2: the analysis step's persisted record for `m1`
holds Alice's name, e-mail, phone and skills byte-for-byte as the plaintext
produced by the analyzer — the file-storage write path applies no cipher to
any field (the source comments it "no encryption needed for local files"),
contradicting the claim that every persisted sensitive field is encrypted. -/
theorem claim_C2_counterexample :
    (storeGet cexParsedStore "m1").map (fun c => c.candidate_name) = some (some "Alice")
    ∧ (storeGet cexParsedStore "m1").map (fun c => c.candidate_email)
        = some (some "alice@example.com")
    ∧ (storeGet cexParsedStore "m1").map (fun c => c.candidate_phone)
        = some (some "555-0100")
    ∧ (storeGet cexParsedStore "m1").map (fun c => c.skills) = some ["python"]
    ∧ (storeGet cexParsedStore "m1").map (fun c => c.executive_summary)
        = some "Seasoned engineer"
    ∧ (storeGet cexParsedStore "m1").map (fun c => c.is_parsed) = some true := by
  decide

/-- Claim C2 (amended): the analysis step persists sensitive fields through
the file-storage path in plaintext — the stored record's candidate name is
the analyzer's string itself, stored as given under the record's message id —
while encryption at rest exists only on the relational-database path, where
`add_candidate` stores the cipher token of each truthy sensitive field, a
token that decrypts back to the original string. -/
theorem claim_C2_file_plaintext_db_encrypted
    (c : CandidateData) (p : ParsedData) (now : Nat) (s : FileStore)
    (key iv : Nat) (cd : CandidateInsertData) (str : String)
    (hname : p.name = some str) (hne : str ≠ "") (hdb : cd.candidate_name = some str) :
    (updateCandidateWithParsedData c p now).candidate_name = some str
    ∧ (updateCandidateWithParsedData c p now).is_parsed = true
    ∧ storeGet (saveCandidateMetadata s (updateCandidateWithParsedData c p now))
        (updateCandidateWithParsedData c p now).email_id
        = some (updateCandidateWithParsedData c p now)
    ∧ (addCandidate key iv cd).candidate_name = some (dbEncryptStr key iv str)
    ∧ fernetDecrypt key (dbEncryptStr key iv str) = some (strSymbols str) := by
  refine ⟨?_, rfl, ?_, ?_, ?_⟩
  · simp [updateCandidateWithParsedData, hname, hne]
  · exact storeGet_storeSet_self s _ _
  · simp [addCandidate, truthyOptStr, hdb, hne]
  · simp only [dbEncryptStr, fernetEncrypt, fernetDecrypt, if_pos rfl]
    exact congrArg some (decSeq_encSeq key iv 0 (strSymbols str) (strSymbols_lt str))

/-- Witness for C2 (amended) at Alice's concrete record and a concrete key. -/
theorem claim_C2_witness :
    (updateCandidateWithParsedData cexMsg1Candidate parsedAlice 2).candidate_name
      = some "Alice"
    ∧ (updateCandidateWithParsedData cexMsg1Candidate parsedAlice 2).is_parsed = true
    ∧ storeGet (saveCandidateMetadata cexStore1
          (updateCandidateWithParsedData cexMsg1Candidate parsedAlice 2))
        (updateCandidateWithParsedData cexMsg1Candidate parsedAlice 2).email_id
        = some (updateCandidateWithParsedData cexMsg1Candidate parsedAlice 2)
    ∧ (addCandidate 5 3
          ⟨"m1", 0, some "alice@mail", some "Alice Sender", some "resume",
            some "r1.pdf", some "h", some 100, some "Alice",
            some "alice@example.com", some "555-0100", some "raw"⟩).candidate_name
        = some (dbEncryptStr 5 3 "Alice")
    ∧ fernetDecrypt 5 (dbEncryptStr 5 3 "Alice") = some (strSymbols "Alice") :=
  claim_C2_file_plaintext_db_encrypted cexMsg1Candidate parsedAlice 2 cexStore1 5 3
    ⟨"m1", 0, some "alice@mail", some "Alice Sender", some "resume",
      some "r1.pdf", some "h", some 100, some "Alice",
      some "alice@example.com", some "555-0100", some "raw"⟩
    "Alice" rfl (by decide) rfl

/-! ## State-machine claim -/

/-- Claim C7: in every store state reachable through the pipeline's
operations (create, analyze, score-all-pending, decision update, purge), a
record with `isScored = true` also has `isAnalyzed` (`is_parsed`) `= true`:
records are created with both flags false, only the analysis step sets
`is_parsed`, the scoring pass selects only `is_parsed ∧ ¬is_scored` records
when setting `is_scored`, and no operation clears `is_parsed` while leaving
`is_scored` set. -/
theorem claim_C7_scored_implies_parsed (s : FileStore) (h : Reachable s) :
    ScoredImpliesParsed s := by
  induction h with
  | init => intro kc hkc _; simp at hkc
  | step s0 op hr ih =>
    cases op with
    | create email_id email_date se sn subj best now =>
      intro kc hkc hscored
      rcases mem_storeSet _ _ _ _ hkc with rfl | hmem
      · simp [newCandidateData] at hscored
      · exact ih kc hmem hscored
    | analyze email_id parsed now =>
      intro kc hkc hscored
      cases hg : storeGet s0 email_id with
      | none =>
        simp only [applyOp, hg] at hkc
        exact ih kc hkc hscored
      | some c =>
        simp only [applyOp, hg] at hkc
        by_cases hp : c.is_parsed
        · rw [if_pos hp] at hkc
          exact ih kc hkc hscored
        · rw [if_neg hp] at hkc
          rcases mem_storeSet _ _ _ _ hkc with rfl | hmem
          · rfl
          · exact ih kc hmem hscored
    | scoreAll f =>
      intro kc hkc hscored
      simp only [applyOp] at hkc
      rcases List.mem_map.mp hkc with ⟨kc0, hkc0, rfl⟩
      by_cases hcond : (kc0.2.is_parsed && !kc0.2.is_scored) = true
      · rw [if_pos hcond]
        exact (Bool.and_eq_true _ _).mp hcond |>.1
      · rw [if_neg hcond]
        rw [if_neg hcond] at hscored
        exact ih kc0 hkc0 hscored
    | decide_ email_id status notes tags now =>
      intro kc hkc hscored
      cases hg : storeGet s0 email_id with
      | none =>
        simp only [applyOp, updateCandidateStatus, hg] at hkc
        exact ih kc hkc hscored
      | some c =>
        simp only [applyOp, updateCandidateStatus, hg, saveCandidateMetadata] at hkc
        rcases mem_storeSet _ _ _ _ hkc with rfl | hmem
        · exact ih (email_id, c) (storeGet_mem s0 email_id c hg) hscored
        · exact ih kc hmem hscored
    | purge =>
      intro kc hkc _
      simp [applyOp] at hkc

/-- Witness for C7 at a concrete reachable state: create `m1`, analyze it,
then run the scoring pass. -/
theorem claim_C7_witness :
    ScoredImpliesParsed
      (applyOp
        (applyOp
          (applyOp [] (StoreOp.create "m1" 0 "alice@mail" "Alice Sender" "resume"
            ⟨"r1.pdf", "h", 100⟩ 0))
          (StoreOp.analyze "m1" parsedAlice 2))
        (StoreOp.scoreAll (fun _ => 56))) :=
  claim_C7_scored_implies_parsed _
    (Reachable.step _ _ (Reachable.step _ _ (Reachable.step _ _ Reachable.init)))

/-! ## Decision-frame claim -/

theorem updateCandidateStatus_eq (s : FileStore) (id status notes : String)
    (tags : List String) (now : Nat) (c : CandidateData)
    (hget : storeGet s id = some c) (hkey : c.email_id = id) :
    updateCandidateStatus s id status notes tags now
      = storeSet s id
          { c with status := status, notes := notes, tags := tags, updated_at := now } := by
  simp only [updateCandidateStatus, hget, saveCandidateMetadata, hkey]

/-- Claim C8: a decision update (any status, notes, tags, at any time, legal
in every prior state) changes only `status`, `notes`, `tags` and
`updated_at`; applying `setDecision(.., "pass")` then `setDecision(.., "new")`
leaves the record equal to the original except for exactly those four fields
— in particular `is_parsed`, `is_scored`, `score`, `score_breakdown` and all
ingestion/analysis fields keep their prior values — and records of other
message ids are untouched. -/
theorem claim_C8_decision_only_touches_decision_fields
    (s : FileStore) (id status1 notes1 status2 notes2 : String)
    (tags1 tags2 : List String) (t1 t2 : Nat) (c : CandidateData)
    (hget : storeGet s id = some c) (hkey : c.email_id = id) :
    storeGet (updateCandidateStatus (updateCandidateStatus s id status1 notes1 tags1 t1)
        id status2 notes2 tags2 t2) id
      = some { c with status := status2, notes := notes2, tags := tags2, updated_at := t2 }
    ∧ ∀ k, k ≠ id →
        storeGet (updateCandidateStatus (updateCandidateStatus s id status1 notes1 tags1 t1)
          id status2 notes2 tags2 t2) k = storeGet s k := by
  have h1 := updateCandidateStatus_eq s id status1 notes1 tags1 t1 c hget hkey
  have hget1 : storeGet (updateCandidateStatus s id status1 notes1 tags1 t1) id
      = some { c with status := status1, notes := notes1, tags := tags1, updated_at := t1 } := by
    rw [h1]
    exact storeGet_storeSet_self s id _
  have h2 := updateCandidateStatus_eq (updateCandidateStatus s id status1 notes1 tags1 t1)
    id status2 notes2 tags2 t2
    { c with status := status1, notes := notes1, tags := tags1, updated_at := t1 } hget1 hkey
  refine ⟨?_, ?_⟩
  · rw [h2]
    exact storeGet_storeSet_self _ id _
  · intro k hk
    rw [h2, storeGet_storeSet_ne _ id k _ hk, h1, storeGet_storeSet_ne _ id k _ hk]

/-- Witness for C8: the pass-then-new round trip on Alice's concrete record
restores the original record up to the decision fields. -/
theorem claim_C8_witness :
    storeGet (updateCandidateStatus (updateCandidateStatus cexStore1 "m1" "pass" "weak fit"
        ["later"] 5) "m1" "new" "" [] 6) "m1"
      = some { cexMsg1Candidate with status := "new", notes := "", tags := [], updated_at := 6 }
    ∧ storeGet (updateCandidateStatus (updateCandidateStatus cexStore1 "m1" "pass" "weak fit"
        ["later"] 5) "m1" "new" "" [] 6) "m2" = storeGet cexStore1 "m2" :=
  ⟨(claim_C8_decision_only_touches_decision_fields cexStore1 "m1" "pass" "weak fit" "new" ""
      ["later"] [] 5 6 cexMsg1Candidate (by decide) rfl).1,
   (claim_C8_decision_only_touches_decision_fields cexStore1 "m1" "pass" "weak fit" "new" ""
      ["later"] [] 5 6 cexMsg1Candidate (by decide) rfl).2 "m2" (by decide)⟩

/-! ## Configuration claims -/

/-- Counterexample for C3: with all three environment variables present,
startup validation succeeds even though the AES key `"abc"` is invalid
base64; `Config.aes_key` then silently substitutes the freshly generated key
(whatever it is), and a job profile that fails to load is silently replaced
by the empty profile, under which scoring proceeds with the neutral 0.5
skills factor — none of this is a fatal configuration error. -/
theorem claim_C3_counterexample :
    (validateEnvVars (some "client") (some "tenant") (some "abc")).isOk = true
    ∧ b64decode "abc" = none
    ∧ aesKey (some "abc") [1, 2, 3] = [1, 2, 3]
    ∧ aesKey (some "abc") [7, 7] = [7, 7]
    ∧ loadJobProfile (.error "FileNotFoundError: job_profile.yml") = emptyProfile
    ∧ scoreSkills emptyProfile scenarioCCandidate = 0.5 := by
  refine ⟨by decide, by decide, by decide, by decide, rfl, ?_⟩
  simp [scoreSkills, emptyProfile]

/-- Claim C3 (amended): a *missing* (unset or empty) cipher key is fatal at
startup — `_validate_env_vars` raises before any per-item processing — but an
*invalid* key is not: a present key that fails base64 decoding is silently
replaced by a freshly generated key, and a job profile that fails to load or
parse is silently replaced by the empty profile, with processing continuing
on those defaults. -/
theorem claim_C3_startup_validation_and_silent_defaults
    (cid tid ak : Option String) (fresh k : List Nat) (e : String) (p : JobProfile) :
    (envTruthy ak = false → ∃ msg, validateEnvVars cid tid ak = .error msg)
    ∧ (b64decode (ak.getD "") = some k → aesKey ak fresh = k)
    ∧ (b64decode (ak.getD "") = none → aesKey ak fresh = fresh)
    ∧ loadJobProfile (.error e) = emptyProfile
    ∧ loadJobProfile (.ok p) = p := by
  refine ⟨?_, ?_, ?_, rfl, rfl⟩
  · intro hmissing
    cases hc : envTruthy cid <;> cases ht : envTruthy tid <;>
      simp [validateEnvVars, hmissing, hc, ht]
  · intro hdec
    simp [aesKey, hdec]
  · intro hdec
    simp [aesKey, hdec]

/-- Witness for C3 (amended): invalid key `"abc"` is replaced by the fresh
key; valid key `"QUJD"` decodes to the bytes of `"ABC"`; a failed profile
read yields the empty profile. -/
theorem claim_C3_witness :
    aesKey (some "abc") [1, 2] = [1, 2]
    ∧ aesKey (some "QUJD") [9] = [65, 66, 67]
    ∧ loadJobProfile (.error "boom") = emptyProfile :=
  ⟨(claim_C3_startup_validation_and_silent_defaults (some "c") (some "t") (some "abc")
      [1, 2] [] "boom" emptyProfile).2.2.1 (by decide),
   (claim_C3_startup_validation_and_silent_defaults (some "c") (some "t") (some "QUJD")
      [9] [65, 66, 67] "boom" emptyProfile).2.1 (by decide),
   (claim_C3_startup_validation_and_silent_defaults (some "c") (some "t") (some "QUJD")
      [9] [65, 66, 67] "boom" emptyProfile).2.2.2.1⟩

end CVLens
